import Mathlib

/-!
Shallow embedding of the Sequential Intelligence Accumulation Engine
(`src/bridge/emergent_intelligence.py` and the `process_video` pipeline of
`src/bridge/ml_connector.py`).

Numeric strengths/correlations are embedded as `Rat` (the Python code does
exact-looking arithmetic on small floats: sums, divisions, comparisons).
Python dicts with string keys preserve insertion order, so the per-key
histories `state["pattern_strengths"]` and `state["correlation_matrix"]`
are embedded as association lists where a fresh key is appended at the end.
A Python record (dict) whose field may be absent is embedded with `Option`
fields: direct indexing `d['k']` on an absent key raises `KeyError`, which
the `try/except` of `update_intelligence` turns into a `False` return with
whatever partial mutation already happened; `d.get('k', v)` never raises.
-/

namespace SolarEmergence

/-- One entry of a per-pattern strength history:
`{"video": video_number, "strength": ...}`. -/
structure StrengthEntry where
  video : Nat
  strength : Rat
deriving DecidableEq, Repr

/-- One entry of a per-feature-pair correlation history:
`{"video": video_number, "value": ...}`. -/
structure CorrEntry where
  video : Nat
  value : Rat
deriving DecidableEq, Repr

/-- One row of `state["discoveries"]` (the wall-clock `timestamp` field is
omitted from the embedding; no claim depends on it). -/
structure LogEntry where
  video : Nat
  patterns_found : Nat
  correlations_found : Nat
  unknown_signals : Nat
deriving DecidableEq, Repr

/-- A pattern record as consumed by `update_intelligence`.  `type` is read
with direct indexing `pattern['type']` (raises when absent, hence
`Option`); `description` and `strength` are read with `.get` and a
default. -/
structure PatternRecord where
  type : Option String
  description : Option String
  strength : Option Rat
deriving DecidableEq, Repr

/-- A correlation record as consumed by `update_intelligence`.  All three
fields are read with direct indexing (each raises when absent). -/
structure CorrelationRecord where
  feature_a : Option String
  feature_b : Option String
  correlation : Option Rat
deriving DecidableEq, Repr

/-- A meta-pattern record (`_find_meta_patterns` appends one with a random
`acceleration`; only its presence matters to the claims). -/
structure MetaRecord where
  acceleration : Rat
deriving DecidableEq, Repr

/-- An unknown-space record (`_explore_unknown_space`; only its presence
matters to the claims). -/
structure UnknownRecord where
  variance : Rat
deriving DecidableEq, Repr

/-- The transient discoveries bundle returned by `discover_patterns`. -/
structure Discovery where
  patterns : List PatternRecord
  correlations : List CorrelationRecord
  unknown : List UnknownRecord
  meta_patterns : List MetaRecord
deriving DecidableEq, Repr

/-- The accumulated intelligence state `self.state`.  `creation_time` and
the per-row timestamps are wall-clock strings and are omitted;
`meta_patterns` is embedded as a count (the code never appends to
`state["meta_patterns"]`). -/
structure IState where
  videos_processed : Nat
  total_patterns : Nat
  total_correlations : Nat
  unknown_space_used : Rat
  discoveries : List LogEntry
  pattern_strengths : List (String × List StrengthEntry)
  correlation_matrix : List (String × List CorrEntry)
  meta_patterns : Nat
deriving DecidableEq, Repr

/-- The fresh state built by `_load_or_initialize_state` when no checkpoint
exists. -/
def initState : IState :=
  { videos_processed := 0
    total_patterns := 0
    total_correlations := 0
    unknown_space_used := 0
    discoveries := []
    pattern_strengths := []
    correlation_matrix := []
    meta_patterns := 0 }

/-- Append `e` to the history of key `k`, creating the key at the end when
absent — the combined effect of
`if k not in d: d[k] = []` followed by `d[k].append(e)` on an
insertion-ordered Python dict. -/
def assocAppendEntry : List (String × List α) → String → α → List (String × List α)
  | [], k, e => [(k, [e])]
  | (k', l) :: rest, k, e =>
      if k' = k then (k', l ++ [e]) :: rest else (k', l) :: assocAppendEntry rest k e

/-- `if k not in d: d[k] = []` alone (the first half of the correlation
merge; a `KeyError` on `correlation["correlation"]` can strike between the
two halves, leaving the empty list behind). -/
def assocEnsure : List (String × List α) → String → List (String × List α)
  | [], k => [(k, [])]
  | (k', l) :: rest, k =>
      if k' = k then (k', l) :: rest else (k', l) :: assocEnsure rest k

/-- The pattern id `f"{pattern['type']}_{pattern.get('description','')[:20]}"`;
`none` when `pattern['type']` raises `KeyError`. -/
def patternId (p : PatternRecord) : Option String :=
  p.type.map fun t => t ++ "_" ++ (p.description.getD "").take 20

/-- Merge one pattern record.  The only failure point
(`pattern['type']` missing) strikes before any mutation. -/
def addPattern (s : IState) (vn : Nat) (p : PatternRecord) : Option IState :=
  (patternId p).map fun pid =>
    { s with pattern_strengths :=
        assocAppendEntry s.pattern_strengths pid ⟨vn, p.strength.getD 0⟩ }

/-- Merge one correlation record.  The key is built first
(`correlation['feature_a']`/`['feature_b']` may raise before mutation);
then the empty history is ensured; then `correlation["correlation"]` is
read — if that raises, the ensured (possibly empty) list remains. -/
def addCorrelation (s : IState) (vn : Nat) (c : CorrelationRecord) : Bool × IState :=
  match c.feature_a, c.feature_b with
  | some a, some b =>
      let key := a ++ "_" ++ b
      let m1 := assocEnsure s.correlation_matrix key
      match c.correlation with
      | none => (false, { s with correlation_matrix := m1 })
      | some v => (true, { s with correlation_matrix := assocAppendEntry m1 key ⟨vn, v⟩ })
  | _, _ => (false, s)

/-- The `for pattern in discoveries.get("patterns", [])` loop; on a raise
the state mutated so far is kept and `False` is propagated. -/
def foldPatterns (vn : Nat) : IState → List PatternRecord → Bool × IState
  | s, [] => (true, s)
  | s, p :: rest =>
      match addPattern s vn p with
      | none => (false, s)
      | some s' => foldPatterns vn s' rest

/-- The `for correlation in discoveries.get("correlations", [])` loop. -/
def foldCorrs (vn : Nat) : IState → List CorrelationRecord → Bool × IState
  | s, [] => (true, s)
  | s, c :: rest =>
      match addCorrelation s vn c with
      | (true, s') => foldCorrs vn s' rest
      | (false, s') => (false, s')

/-- `EmergentIntelligence.update_intelligence`.  Counters are bumped first;
then patterns, then correlations are merged; the discoveries-log row is
appended last.  The `Bool` is the Python return value; on `false` the
returned state is the partially mutated one left behind by the raise. -/
def update_intelligence (s : IState) (d : Discovery) (vn : Nat) : Bool × IState :=
  let s1 := { s with
    videos_processed := s.videos_processed + 1
    total_patterns := s.total_patterns + d.patterns.length
    total_correlations := s.total_correlations + d.correlations.length }
  match foldPatterns vn s1 d.patterns with
  | (false, s2) => (false, s2)
  | (true, s2) =>
      match foldCorrs vn s2 d.correlations with
      | (false, s3) => (false, s3)
      | (true, s3) =>
          (true, { s3 with discoveries := s3.discoveries ++
            [⟨vn, d.patterns.length, d.correlations.length, d.unknown.length⟩] })

/-- A sequence of `update_intelligence` calls, `some` only when every call
succeeds. -/
def runUpdates : IState → List (Discovery × Nat) → Option IState
  | s, [] => some s
  | s, (d, vn) :: rest =>
      match update_intelligence s d vn with
      | (true, s') => runUpdates s' rest
      | (false, _) => none

/-- `EmergentIntelligence.get_recent_discoveries`:
`self.state["discoveries"][-limit:] if self.state["discoveries"] else []`.
For `limit > 0` the Python slice keeps the last `limit` rows; for
`limit = 0` the slice `[-0:]` is `[0:]`, the whole list. -/
def get_recent_discoveries (s : IState) (limit : Nat) : List LogEntry :=
  if s.discoveries.isEmpty then []
  else if limit = 0 then s.discoveries
  else s.discoveries.drop (s.discoveries.length - limit)

/-- One row of the ranking built by `_get_top_patterns`. -/
structure TopPattern where
  pattern : String
  average_strength : Rat
  occurrences : Nat
  first_seen : Nat
  last_seen : Nat
deriving DecidableEq, Repr

/-- `np.mean([s["strength"] for s in strength_history])`, exact over `Rat`. -/
def ratMean (l : List Rat) : Rat := l.sum / (l.length : Rat)

/-- The unsorted `patterns_with_strength` list of `_get_top_patterns`:
one summary per key with a non-empty history (`if strength_history:`),
in the dict's insertion order. -/
def patternSummaries (s : IState) : List TopPattern :=
  s.pattern_strengths.filterMap fun kh =>
    match kh with
    | (_, []) => none
    | (pid, e :: rest) =>
        some { pattern := pid
               average_strength := ratMean ((e :: rest).map (·.strength))
               occurrences := (e :: rest).length
               first_seen := e.video
               last_seen := (rest.getLastD e).video }

/-- The comparison under Python's stable
`sort(key=lambda x: x["average_strength"], reverse=True)`:
`a` may stand before `b` iff `b`'s mean is at most `a`'s.  A stable sort
by this total preorder (Python's timsort with `reverse=True`, which keeps
equal elements in list order) produces exactly
`List.insertionSort rankLE`, which inserts each earlier element before
the first later element of no greater mean. -/
def rankLE (a b : TopPattern) : Prop := b.average_strength ≤ a.average_strength

instance : DecidableRel rankLE := fun a b =>
  inferInstanceAs (Decidable (b.average_strength ≤ a.average_strength))

instance : IsTotal TopPattern rankLE :=
  ⟨fun a b => le_total b.average_strength a.average_strength⟩

instance : IsTrans TopPattern rankLE :=
  ⟨fun _ _ _ h1 h2 => le_trans h2 h1⟩

/-- `EmergentIntelligence._get_top_patterns` (default `limit = 10`). -/
def get_top_patterns (s : IState) (limit : Nat := 10) : List TopPattern :=
  (List.insertionSort rankLE (patternSummaries s)).take limit

/-- Modelled from the spec: the claimed ranking order — mean strength
descending, ties broken by occurrence count descending, then by key
lexical order.  Stated only for comparison with `get_top_patterns`. -/
def specRankLE (a b : TopPattern) : Prop :=
  b.average_strength < a.average_strength ∨
    (b.average_strength = a.average_strength ∧
      (b.occurrences < a.occurrences ∨
        (b.occurrences = a.occurrences ∧ a.pattern ≤ b.pattern)))

instance : DecidableRel specRankLE := fun _ _ =>
  inferInstanceAs (Decidable (_ ∨ _))

/-- Modelled from the spec: `top_patterns` as the claim describes it. -/
def specTopPatterns (s : IState) (limit : Nat) : List TopPattern :=
  (List.insertionSort specRankLE (patternSummaries s)).take limit

/-- One row of `evolution["emergence_events"]`. -/
structure EmergenceEvent where
  video : Nat
  pattern : String
  initial_strength : Rat
deriving DecidableEq, Repr

/-- The emergence threshold used by `_get_pattern_evolution_summary`
(`history[0]["strength"] > 0.8`, and `0.8 = 4/5` exactly); written as a
raw reduced fraction so that kernel evaluation needs no normalization. -/
def emergenceThreshold : Rat := ⟨4, 5, by decide, by decide⟩

/-- The `emergence_events` list of
`EmergentIntelligence._get_pattern_evolution_summary`: one event per key
whose non-empty history opens with a strength above the threshold,
timestamped at that first entry's `video`. -/
def emergenceOf : String × List StrengthEntry → Option EmergenceEvent
  | (_, []) => none
  | (pid, e :: _) =>
      if emergenceThreshold < e.strength then
        some { video := e.video, pattern := pid, initial_strength := e.strength }
      else none

/-- The list comprehension over `state["pattern_strengths"].items()`. -/
def emergence_events (s : IState) : List EmergenceEvent :=
  s.pattern_strengths.filterMap emergenceOf

/-- The full return of `_get_pattern_evolution_summary`. -/
structure EvolutionSummary where
  total_videos : Nat
  patterns_discovered : Nat
  correlations_found : Nat
  emergence_events : List EmergenceEvent
deriving DecidableEq, Repr

/-- `EmergentIntelligence._get_pattern_evolution_summary`. -/
def get_pattern_evolution_summary (s : IState) : EvolutionSummary :=
  { total_videos := s.videos_processed
    patterns_discovered := s.total_patterns
    correlations_found := s.total_correlations
    emergence_events := emergence_events s }

/-- The dict returned by `EmergentIntelligence.get_current_state`.
`last_checkpoint` is `state.get("last_checkpoint")`, which no code path
ever sets, and the engine-level `unknown_space` list is never appended to,
so its length is passed in explicitly (0 on every reachable engine). -/
structure StateView where
  videos_processed : Nat
  total_patterns : Nat
  total_correlations : Nat
  unknown_space_used : Rat
  last_checkpoint : Option Nat
  pattern_diversity : Nat
  correlation_density : Nat
  discovery_rate : Rat
deriving DecidableEq, Repr

/-- `EmergentIntelligence.get_current_state`. -/
def get_current_state (unknownLen : Nat) (s : IState) : StateView :=
  { videos_processed := s.videos_processed
    total_patterns := s.total_patterns
    total_correlations := s.total_correlations
    unknown_space_used := (unknownLen : Rat) / 1000
    last_checkpoint := none
    pattern_diversity := s.pattern_strengths.length
    correlation_density := s.correlation_matrix.length
    discovery_rate := (s.total_patterns : Rat) / (max 1 s.videos_processed : Nat) }

/-! ### Checkpoint store

`save_checkpoint` pickles `self.state`; a fresh engine's
`_load_or_initialize_state` unpickles the latest checkpoint.  The pickle
round trip is embedded as an explicit serialization of `IState` into a
tree of tagged values, with deserialization returning `Option` (a corrupt
artifact is a load failure). -/

/-- A serialized value (the shape pickle preserves losslessly). -/
inductive CVal where
  | n (x : Nat)
  | q (x : Rat)
  | s (x : String)
  | arr (xs : List CVal)

/-- Decode each element of a serialized list. -/
def decodeListO (f : CVal → Option α) : List CVal → Option (List α)
  | [] => some []
  | v :: vs =>
      match f v, decodeListO f vs with
      | some a, some as => some (a :: as)
      | _, _ => none

def encodeStrengthEntry (e : StrengthEntry) : CVal := .arr [.n e.video, .q e.strength]

def decodeStrengthEntry : CVal → Option StrengthEntry
  | .arr [.n v, .q st] => some ⟨v, st⟩
  | _ => none

def encodeCorrEntry (e : CorrEntry) : CVal := .arr [.n e.video, .q e.value]

def decodeCorrEntry : CVal → Option CorrEntry
  | .arr [.n v, .q x] => some ⟨v, x⟩
  | _ => none

def encodeLogEntry (e : LogEntry) : CVal :=
  .arr [.n e.video, .n e.patterns_found, .n e.correlations_found, .n e.unknown_signals]

def decodeLogEntry : CVal → Option LogEntry
  | .arr [.n v, .n p, .n c, .n u] => some ⟨v, p, c, u⟩
  | _ => none

def encodeStrHist (kh : String × List StrengthEntry) : CVal :=
  .arr [.s kh.1, .arr (kh.2.map encodeStrengthEntry)]

def decodeStrHist : CVal → Option (String × List StrengthEntry)
  | .arr [.s k, .arr es] => (decodeListO decodeStrengthEntry es).map fun l => (k, l)
  | _ => none

def encodeCorrHist (kh : String × List CorrEntry) : CVal :=
  .arr [.s kh.1, .arr (kh.2.map encodeCorrEntry)]

def decodeCorrHist : CVal → Option (String × List CorrEntry)
  | .arr [.s k, .arr es] => (decodeListO decodeCorrEntry es).map fun l => (k, l)
  | _ => none

/-- Serialize the complete accumulated state (the pickle artifact). -/
def encodeState (s : IState) : CVal :=
  .arr [.n s.videos_processed, .n s.total_patterns, .n s.total_correlations,
        .q s.unknown_space_used, .arr (s.discoveries.map encodeLogEntry),
        .arr (s.pattern_strengths.map encodeStrHist),
        .arr (s.correlation_matrix.map encodeCorrHist), .n s.meta_patterns]

/-- Deserialize a checkpoint artifact; `none` on any shape mismatch. -/
def decodeState : CVal → Option IState
  | .arr [.n vp, .n tp, .n tc, .q u, .arr ds, .arr ps, .arr cs, .n mp] =>
      match decodeListO decodeLogEntry ds, decodeListO decodeStrHist ps,
            decodeListO decodeCorrHist cs with
      | some ds', some ps', some cs' =>
          some { videos_processed := vp, total_patterns := tp, total_correlations := tc,
                 unknown_space_used := u, discoveries := ds', pattern_strengths := ps',
                 correlation_matrix := cs', meta_patterns := mp }
      | _, _, _ => none
  | _ => none

/-- The checkpoint directory: one serialized artifact per saved index, in
write order (the code resolves "latest" by modification time, i.e. by the
most recent write). -/
abbrev Store := List (Nat × CVal)

/-- `EmergentIntelligence.save_checkpoint`.  `diskOk` injects the I/O
fault the `try/except` guards against: on `False` nothing is written, the
exception is swallowed, and `False` is returned; the in-memory state is
never touched either way. -/
def save_checkpoint (diskOk : Bool) (store : Store) (vn : Nat) (s : IState) : Bool × Store :=
  if diskOk then (true, store ++ [(vn, encodeState s)]) else (false, store)

/-- `EmergentIntelligence._load_or_initialize_state` of a freshly
constructed engine: deserialize the latest checkpoint, or build a fresh
state when the store is empty; `none` is a fatal deserialization
failure. -/
def load_or_init_state (store : Store) : Option IState :=
  match store.getLast? with
  | none => some initState
  | some (_, v) => decodeState v

/-! ### Discovery functions and the `process_video` pipeline -/

/-- The stochastic outcomes of the discovery helpers
(`_find_emergent_patterns`, `_discover_correlations`,
`_explore_unknown_space` draw from `np.random` and never read the
accumulated state; `_find_meta_patterns` reads only
`videos_processed`).  The oracle fixes one draw. -/
structure DiscoveryOracle where
  emergent : List PatternRecord
  correlated : List CorrelationRecord
  metaAccel : Rat
  unknownSignals : List UnknownRecord
deriving DecidableEq, Repr

/-- `EmergentIntelligence._find_meta_patterns`: appends its single
second-order record only once `videos_processed > 10`. -/
def find_meta_patterns (o : DiscoveryOracle) (s : IState) : List MetaRecord :=
  if 10 < s.videos_processed then [⟨o.metaAccel⟩] else []

/-- `EmergentIntelligence.discover_patterns`: patterns, correlations and
meta-patterns only when `use_previous_intelligence` holds and
`videos_processed > 0`; unknown-space exploration unconditionally. -/
def discover_patterns (o : DiscoveryOracle) (s : IState) (usePrev : Bool) : Discovery :=
  let d0 : Discovery := { patterns := [], correlations := [], unknown := [], meta_patterns := [] }
  let d1 :=
    if usePrev ∧ 0 < s.videos_processed then
      { d0 with patterns := o.emergent, correlations := o.correlated,
                meta_patterns := find_meta_patterns o s }
    else d0
  { d1 with unknown := o.unknownSignals }

/-- The `DiscoveryResponse` of `ml_connector.process_video`. -/
structure ProcessResult where
  video_number : Nat
  patterns_discovered : List PatternRecord
  correlations_found : List CorrelationRecord
  unknown_signals : List UnknownRecord
  intelligence_updated : Bool
  checkpoint_saved : Bool
deriving DecidableEq, Repr

/-- `ml_connector.process_video` on one request: discover against the
current state, merge, then attempt the checkpoint save, surfacing both
status booleans in the response.  (Raw-feature storage touches no
engine state and is omitted.) -/
def process_video (o : DiscoveryOracle) (diskOk : Bool) (s : IState) (store : Store)
    (vn : Nat) : ProcessResult × IState × Store :=
  let d := discover_patterns o s true
  let u := update_intelligence s d vn
  let sc := save_checkpoint diskOk store vn u.2
  ({ video_number := vn, patterns_discovered := d.patterns,
     correlations_found := d.correlations, unknown_signals := d.unknown,
     intelligence_updated := u.1, checkpoint_saved := sc.1 }, u.2, sc.2)

/-! ### Concrete sample inputs used by counterexamples and witnesses -/

/-- A well-formed single-pattern, single-correlation discovery. -/
def sampleDiscovery : Discovery :=
  { patterns := [{ type := some "micro_temporal", description := some "Eyebrow AU2",
                   strength := some ⟨1, 2, by decide, by decide⟩ }]
    correlations := [{ feature_a := some "facial.landmarks.123",
                       feature_b := some "audio.prosody.45",
                       correlation := some ⟨1, 4, by decide, by decide⟩ }]
    unknown := [⟨2⟩]
    meta_patterns := [] }

/-- A second well-formed discovery (different pattern key, high strength). -/
def sampleDiscovery2 : Discovery :=
  { patterns := [{ type := some "cross_modal", description := some "Voice pitch drop",
                   strength := some ⟨9, 10, by decide, by decide⟩ }]
    correlations := []
    unknown := []
    meta_patterns := [] }

/-- A malformed discovery: the pattern record lacks the `type` key, so
`update_intelligence` raises `KeyError` mid-merge. -/
def malformedDiscovery : Discovery :=
  { patterns := [{ type := none, description := none, strength := none }]
    correlations := []
    unknown := []
    meta_patterns := [] }

/-- The ranking scenario of the spec: strengths `A:[0.9]`, `B:[0.5,0.7]`,
`C:[0.95,0.95]`. -/
def scenState : IState :=
  { initState with pattern_strengths :=
      [("A", [⟨0, 9/10⟩]), ("B", [⟨0, 1/2⟩, ⟨1, 7/10⟩]), ("C", [⟨0, 19/20⟩, ⟨1, 19/20⟩])] }

/-- A tie on mean strength: key `b_` was inserted first with one entry,
key `a_` second with two entries of the same mean. -/
def tieState : IState :=
  { initState with pattern_strengths :=
      [("b_", [⟨0, 1/2⟩]), ("a_", [⟨0, 1/2⟩, ⟨1, 1/2⟩])] }

/-- A state with one pattern whose history opens above the emergence
threshold at video 3. -/
def emergedHist : List StrengthEntry :=
  [⟨3, ⟨9, 10, by decide, by decide⟩⟩, ⟨5, ⟨1, 2, by decide, by decide⟩⟩]

def emergedState : IState :=
  { initState with pattern_strengths := [("p_", emergedHist)] }

/-- A state with a single discoveries-log row. -/
def oneLogState : IState :=
  { initState with discoveries := [⟨0, 1, 1, 0⟩] }

/-- A sample discovery oracle. -/
def sampleOracle : DiscoveryOracle :=
  { emergent := sampleDiscovery.patterns
    correlated := sampleDiscovery.correlations
    metaAccel := ⟨3, 4, by decide, by decide⟩
    unknownSignals := [⟨2⟩] }

/-- A state deep enough for meta-pattern discovery. -/
def deepState : IState := { initState with videos_processed := 11 }

/-- A two-call input sequence with increasing indices. -/
def sampleInputs : List (Discovery × Nat) := [(sampleDiscovery, 0), (sampleDiscovery2, 1)]

/-- The state after running `sampleInputs` from a cold start. -/
def sampleRunState : IState :=
  (update_intelligence (update_intelligence initState sampleDiscovery 0).2 sampleDiscovery2 1).2

/-- Modelled from the claim: "the last `limit` entries" of a log. -/
def lastEntries (limit : Nat) (l : List LogEntry) : List LogEntry :=
  l.drop (l.length - limit)

/-- Every per-key history in `m` has its `video` sequence (under the
projection `v`) non-decreasing and bounded by `B`. -/
def HistOk (v : α → Nat) (B : Nat) (m : List (String × List α)) : Prop :=
  ∀ kh ∈ m, List.Sorted (· ≤ ·) (kh.2.map v) ∧ ∀ e ∈ kh.2, v e ≤ B

/-! ## Helper lemmas -/

theorem addPattern_some {s : IState} {vn : Nat} {p : PatternRecord} {s1 : IState}
    (h : addPattern s vn p = some s1) :
    ∃ pid, patternId p = some pid ∧
      s1 = { s with pattern_strengths :=
        assocAppendEntry s.pattern_strengths pid ⟨vn, p.strength.getD 0⟩ } := by
  unfold addPattern at h
  cases hp : patternId p <;> rw [hp] at h <;> simp_all

theorem foldPatterns_stable (vn : Nat) :
    ∀ (ps : List PatternRecord) (s : IState),
      (foldPatterns vn s ps).2.videos_processed = s.videos_processed ∧
      (foldPatterns vn s ps).2.total_patterns = s.total_patterns ∧
      (foldPatterns vn s ps).2.total_correlations = s.total_correlations ∧
      (foldPatterns vn s ps).2.discoveries = s.discoveries ∧
      (foldPatterns vn s ps).2.correlation_matrix = s.correlation_matrix
  | [], s => by simp [foldPatterns]
  | p :: rest, s => by
      cases hp : addPattern s vn p with
      | none => simp [foldPatterns, hp]
      | some s1 =>
          obtain ⟨pid, _, hs1⟩ := addPattern_some hp
          have ih := foldPatterns_stable vn rest s1
          simp only [foldPatterns, hp]
          subst hs1
          simpa using ih

theorem addCorrelation_stable (s : IState) (vn : Nat) (c : CorrelationRecord) :
    (addCorrelation s vn c).2.videos_processed = s.videos_processed ∧
    (addCorrelation s vn c).2.total_patterns = s.total_patterns ∧
    (addCorrelation s vn c).2.total_correlations = s.total_correlations ∧
    (addCorrelation s vn c).2.discoveries = s.discoveries ∧
    (addCorrelation s vn c).2.pattern_strengths = s.pattern_strengths := by
  unfold addCorrelation
  cases c.feature_a <;> cases c.feature_b <;> simp
  cases c.correlation <;> simp

theorem foldCorrs_stable (vn : Nat) :
    ∀ (cs : List CorrelationRecord) (s : IState),
      (foldCorrs vn s cs).2.videos_processed = s.videos_processed ∧
      (foldCorrs vn s cs).2.total_patterns = s.total_patterns ∧
      (foldCorrs vn s cs).2.total_correlations = s.total_correlations ∧
      (foldCorrs vn s cs).2.discoveries = s.discoveries ∧
      (foldCorrs vn s cs).2.pattern_strengths = s.pattern_strengths
  | [], s => by simp [foldCorrs]
  | c :: rest, s => by
      have hst := addCorrelation_stable s vn c
      cases hc : addCorrelation s vn c with
      | mk ok s1 =>
          rw [hc] at hst
          cases ok with
          | false => simpa [foldCorrs, hc] using hst
          | true =>
              have ih := foldCorrs_stable vn rest s1
              simp only [foldCorrs, hc]
              exact ⟨hst.1 ▸ ih.1, hst.2.1 ▸ ih.2.1, hst.2.2.1 ▸ ih.2.2.1,
                     hst.2.2.2.1 ▸ ih.2.2.2.1, hst.2.2.2.2 ▸ ih.2.2.2.2⟩

/-- Field accounting for one `update_intelligence` call: the item counter
always advances by one; the discoveries log gains exactly its row on
success and is untouched on failure. -/
theorem update_fields (s : IState) (d : Discovery) (vn : Nat) :
    (update_intelligence s d vn).2.videos_processed = s.videos_processed + 1 ∧
    ((update_intelligence s d vn).1 = true →
      (update_intelligence s d vn).2.discoveries =
        s.discoveries ++ [⟨vn, d.patterns.length, d.correlations.length, d.unknown.length⟩]) ∧
    ((update_intelligence s d vn).1 = false →
      (update_intelligence s d vn).2.discoveries = s.discoveries) := by
  unfold update_intelligence
  have hp := foldPatterns_stable vn d.patterns
    { s with
      videos_processed := s.videos_processed + 1
      total_patterns := s.total_patterns + d.patterns.length
      total_correlations := s.total_correlations + d.correlations.length }
  cases hfp : foldPatterns vn
      { s with
        videos_processed := s.videos_processed + 1
        total_patterns := s.total_patterns + d.patterns.length
        total_correlations := s.total_correlations + d.correlations.length } d.patterns with
  | mk okp s2 =>
      rw [hfp] at hp
      have h2v : s2.videos_processed = s.videos_processed + 1 := hp.1
      have h2d : s2.discoveries = s.discoveries := hp.2.2.2.1
      cases okp with
      | false =>
          simp only [hfp]
          exact ⟨h2v, fun h => absurd h (by decide), fun _ => h2d⟩
      | true =>
          have hcs := foldCorrs_stable vn d.correlations s2
          cases hfc : foldCorrs vn s2 d.correlations with
          | mk okc s3 =>
              rw [hfc] at hcs
              have h3v : s3.videos_processed = s.videos_processed + 1 := hcs.1.trans h2v
              have h3d : s3.discoveries = s.discoveries := hcs.2.2.2.1.trans h2d
              cases okc with
              | false =>
                  simp only [hfp, hfc]
                  exact ⟨h3v, fun h => absurd h (by decide), fun _ => h3d⟩
              | true =>
                  simp only [hfp, hfc]
                  exact ⟨h3v,
                    fun _ => congrArg
                      (fun l => l ++
                        [⟨vn, d.patterns.length, d.correlations.length, d.unknown.length⟩]) h3d,
                    fun h => absurd h (by decide)⟩

theorem runUpdates_counts :
    ∀ (inputs : List (Discovery × Nat)) (s s' : IState),
      runUpdates s inputs = some s' →
      s'.videos_processed = s.videos_processed + inputs.length ∧
      s'.discoveries.length = s.discoveries.length + inputs.length
  | [], s, s', h => by
      simp [runUpdates] at h
      subst h; simp
  | (d, vn) :: rest, s, s', h => by
      have hu := update_fields s d vn
      cases hup : update_intelligence s d vn with
      | mk ok s1 =>
          rw [hup] at hu
          cases ok with
          | false => simp [runUpdates, hup] at h
          | true =>
              rw [runUpdates, hup] at h
              have ih := runUpdates_counts rest s1 s' h
              have hlen : s1.discoveries.length = s.discoveries.length + 1 := by
                rw [hu.2.1 rfl]; simp
              constructor
              · rw [ih.1, hu.1, List.length_cons]; omega
              · rw [ih.2, hlen, List.length_cons]; omega

/-! ## Claim theorems -/

/-- C1: along every sequence of successful `update_intelligence` calls,
`videos_processed` advances by exactly 1 per call (and the discoveries log
by exactly one row), and from a cold start it always equals the length of
the discoveries log. -/
theorem update_counts_track_discoveries_log :
    (∀ (s : IState) (d : Discovery) (vn : Nat) (s' : IState),
      update_intelligence s d vn = (true, s') →
      s'.videos_processed = s.videos_processed + 1 ∧
      s'.discoveries.length = s.discoveries.length + 1) ∧
    (∀ (inputs : List (Discovery × Nat)) (s' : IState),
      runUpdates initState inputs = some s' →
      s'.videos_processed = inputs.length ∧
      s'.videos_processed = s'.discoveries.length) := by
  constructor
  · intro s d vn s' h
    have hu := update_fields s d vn
    rw [h] at hu
    exact ⟨hu.1, by rw [hu.2.1 rfl]; simp⟩
  · intro inputs s' h
    have hc := runUpdates_counts inputs initState s' h
    have h0 : initState.videos_processed = 0 := rfl
    have h0' : initState.discoveries.length = 0 := rfl
    rw [h0] at hc
    omega

/-- Witness for C1 at a concrete successful call and run. -/
theorem update_counts_track_discoveries_log_witness :
    ((update_intelligence initState sampleDiscovery 0).2.videos_processed =
        initState.videos_processed + 1 ∧
      (update_intelligence initState sampleDiscovery 0).2.discoveries.length =
        initState.discoveries.length + 1) ∧
    ((update_intelligence initState sampleDiscovery 0).2.videos_processed =
        [(sampleDiscovery, 0)].length ∧
      (update_intelligence initState sampleDiscovery 0).2.videos_processed =
        (update_intelligence initState sampleDiscovery 0).2.discoveries.length) :=
  ⟨update_counts_track_discoveries_log.1 initState sampleDiscovery 0
      (update_intelligence initState sampleDiscovery 0).2 (by decide),
   update_counts_track_discoveries_log.2 [(sampleDiscovery, 0)]
      (update_intelligence initState sampleDiscovery 0).2 (by decide)⟩

/-- C2 counterexample: the merge is not atomic.  With a pattern record
lacking its `type` key the call fails, yet the state is not the one from
before the call (`videos_processed` and `total_patterns` were already
bumped). -/
theorem merge_not_atomic_cex :
    (update_intelligence initState malformedDiscovery 0).1 = false ∧
    (update_intelligence initState malformedDiscovery 0).2 ≠ initState := by
  decide

/-- C2 amended: a failing `update_intelligence` leaves the state partially
mutated, not untouched — the counters were already incremented
(`videos_processed` by exactly 1) before the failure; only the
discoveries-log append, which comes last, is guaranteed absent. -/
theorem failed_update_leaves_partial_mutation (s : IState) (d : Discovery) (vn : Nat)
    (h : (update_intelligence s d vn).1 = false) :
    (update_intelligence s d vn).2.videos_processed = s.videos_processed + 1 ∧
    (update_intelligence s d vn).2.discoveries = s.discoveries :=
  ⟨(update_fields s d vn).1, (update_fields s d vn).2.2 h⟩

/-- Witness for the amended C2 at the concrete malformed discovery. -/
theorem failed_update_leaves_partial_mutation_witness :
    (update_intelligence initState malformedDiscovery 0).2.videos_processed =
        initState.videos_processed + 1 ∧
    (update_intelligence initState malformedDiscovery 0).2.discoveries =
        initState.discoveries :=
  failed_update_leaves_partial_mutation initState malformedDiscovery 0 (by decide)

/-- C9 counterexample: at `limit = 0` on a non-empty log the code returns
the whole log, not the last 0 entries. -/
theorem recent_discoveries_zero_limit_cex :
    get_recent_discoveries oneLogState 0 ≠ lastEntries 0 oneLogState.discoveries := by
  decide

/-- C9 amended: for every positive `limit`, `get_recent_discoveries`
returns exactly the last `limit` entries of the discoveries log in
chronological order (the suffix of the log, oldest of the window
first). -/
theorem recent_discoveries_returns_suffix (s : IState) (limit : Nat) (h : 1 ≤ limit) :
    get_recent_discoveries s limit = lastEntries limit s.discoveries := by
  unfold get_recent_discoveries lastEntries
  cases hd : s.discoveries with
  | nil => simp
  | cons e rest =>
      have : limit ≠ 0 := by omega
      simp [this]

/-- Witness for the amended C9 at a concrete log and limit. -/
theorem recent_discoveries_returns_suffix_witness :
    get_recent_discoveries oneLogState 1 = lastEntries 1 oneLogState.discoveries :=
  recent_discoveries_returns_suffix oneLogState 1 (by decide)

/-- C10: at `limit = 0` the slice `[-0:]` selects everything, so a
non-empty log is returned whole, while an empty log yields the empty
sequence. -/
theorem recent_discoveries_zero_limit (s : IState) :
    (s.discoveries ≠ [] → get_recent_discoveries s 0 = s.discoveries) ∧
    (s.discoveries = [] → get_recent_discoveries s 0 = []) := by
  constructor
  · intro h
    unfold get_recent_discoveries
    simp [h]
  · intro h
    unfold get_recent_discoveries
    simp [h]

/-- Witness for C10 on a one-row log and on the fresh state. -/
theorem recent_discoveries_zero_limit_witness :
    get_recent_discoveries oneLogState 0 = oneLogState.discoveries ∧
    get_recent_discoveries initState 0 = [] :=
  ⟨(recent_discoveries_zero_limit oneLogState).1 (by decide),
   (recent_discoveries_zero_limit initState).2 (by decide)⟩

theorem filter_orderedInsert (p : TopPattern → Bool) (a : TopPattern)
    (hpa : p a = true → ∀ y, p y = true → rankLE a y) :
    ∀ l : List TopPattern,
      (List.orderedInsert rankLE a l).filter p =
        if p a then a :: l.filter p else l.filter p
  | [] => by cases hp : p a <;> simp [List.orderedInsert, List.filter, hp]
  | b :: l => by
      by_cases hr : rankLE a b
      · rw [List.orderedInsert_of_le rankLE l hr]
        cases hp : p a <;> simp [List.filter_cons, hp]
      · have ih := filter_orderedInsert p a hpa l
        simp only [List.orderedInsert, if_neg hr]
        cases hp : p a with
        | true =>
            have hpb : p b = false := by
              cases hq : p b
              · rfl
              · exact absurd (hpa hp b hq) hr
            rw [hp] at ih
            simp [List.filter_cons, hpb, ih, hp]
        | false =>
            rw [hp] at ih
            simp only [if_neg Bool.false_ne_true] at ih
            simp [List.filter_cons, ih, hp]

theorem filter_insertionSort (p : TopPattern → Bool)
    (hp : ∀ a, p a = true → ∀ y, p y = true → rankLE a y) :
    ∀ l : List TopPattern, (List.insertionSort rankLE l).filter p = l.filter p
  | [] => rfl
  | a :: l => by
      rw [List.insertionSort, filter_orderedInsert p a (hp a),
          filter_insertionSort p hp l, List.filter_cons]

/-- C3 counterexample: on a mean-strength tie the code keeps dict
insertion order (Python's sort is stable), it does not re-order by
occurrence count descending / key lexical order as claimed: with key
`b_` (one strength 0.5) inserted before key `a_` (two strengths 0.5),
the code returns `[b_, a_]` while the claimed ordering is `[a_, b_]`. -/
theorem top_patterns_tiebreak_cex :
    get_top_patterns tieState 2 ≠ specTopPatterns tieState 2 ∧
    (get_top_patterns tieState 2).map (·.pattern) = ["b_", "a_"] ∧
    (specTopPatterns tieState 2).map (·.pattern) = ["a_", "b_"] := by
  have h1 : (get_top_patterns tieState 2).map (·.pattern) = ["b_", "a_"] := by
    norm_num [get_top_patterns, patternSummaries, tieState, initState, ratMean, rankLE,
      List.insertionSort, List.orderedInsert, List.filterMap]
  have h2 : (specTopPatterns tieState 2).map (·.pattern) = ["a_", "b_"] := by
    norm_num [specTopPatterns, patternSummaries, tieState, initState, ratMean, specRankLE,
      List.insertionSort, List.orderedInsert, List.filterMap]
  refine ⟨fun h => ?_, h1, h2⟩
  rw [h, h2] at h1
  exact absurd h1 (by decide)

/-- C3 amended: `_get_top_patterns` returns per-key summaries sorted
descending by mean strength and truncated to `limit`; ties are kept in
the state's key-insertion order (stable sort), not re-ordered by
occurrence count or key.  Stability is stated as: restricting the sorted
ranking to any fixed mean leaves the summaries in their original order.
The spec's three-pattern scenario `top_patterns(2) = [C, A]` holds. -/
theorem top_patterns_sorted_stable :
    (∀ (s : IState) (limit : Nat),
      List.Pairwise rankLE (get_top_patterns s limit) ∧
      (get_top_patterns s limit).length = min limit (patternSummaries s).length ∧
      (∃ rest, (get_top_patterns s limit ++ rest).Perm (patternSummaries s)) ∧
      (∀ q : Rat,
        (List.insertionSort rankLE (patternSummaries s)).filter
            (fun x => decide (x.average_strength = q)) =
          (patternSummaries s).filter (fun x => decide (x.average_strength = q)))) ∧
    (get_top_patterns scenState 2).map (·.pattern) = ["C", "A"] ∧
    (get_top_patterns tieState 2).map (·.pattern) = ["b_", "a_"] := by
  refine ⟨fun s limit => ⟨?_, ?_, ?_, ?_⟩, ?_, ?_⟩
  · exact (List.sorted_insertionSort rankLE (patternSummaries s)).sublist
      (List.take_sublist limit _)
  · rw [get_top_patterns, List.length_take, List.length_insertionSort]
  · exact ⟨(List.insertionSort rankLE (patternSummaries s)).drop limit, by
      rw [get_top_patterns, List.take_append_drop]
      exact List.perm_insertionSort rankLE (patternSummaries s)⟩
  · intro q
    refine filter_insertionSort _ (fun a ha y hy => ?_) _
    have ha' := of_decide_eq_true ha
    have hy' := of_decide_eq_true hy
    unfold rankLE
    rw [ha', hy']
  · norm_num [get_top_patterns, patternSummaries, scenState, initState, ratMean, rankLE,
      List.insertionSort, List.orderedInsert, List.filterMap]
  · norm_num [get_top_patterns, patternSummaries, tieState, initState, ratMean, rankLE,
      List.insertionSort, List.orderedInsert, List.filterMap]

theorem emergenceOf_eq_some {kh : String × List StrengthEntry} {ev : EmergenceEvent} :
    emergenceOf kh = some ev ↔
      ∃ e rest, kh.2 = e :: rest ∧ emergenceThreshold < e.strength ∧
        ev = ⟨e.video, kh.1, e.strength⟩ := by
  obtain ⟨k, h⟩ := kh
  cases h with
  | nil => simp [emergenceOf]
  | cons e rest =>
      by_cases ht : emergenceThreshold < e.strength <;>
        simp [emergenceOf, ht, eq_comm, and_assoc]

theorem nodupKeys_eq {β : Type} :
    ∀ {l : List (String × β)}, (l.map Prod.fst).Nodup →
      ∀ {k : String} {a b : β}, (k, a) ∈ l → (k, b) ∈ l → a = b
  | [], _, _, _, _, ha, _ => absurd ha (List.not_mem_nil _)
  | (k', x) :: rest, hnd, k, a, b, ha, hb => by
      rw [List.map_cons, List.nodup_cons] at hnd
      rcases List.mem_cons.mp ha with h1 | h1 <;> rcases List.mem_cons.mp hb with h2 | h2
      · rw [Prod.mk.injEq] at h1 h2
        rw [h1.2, h2.2]
      · exfalso
        rw [Prod.mk.injEq] at h1
        apply hnd.1
        rw [← h1.1]
        exact List.mem_map.mpr ⟨(k, b), h2, rfl⟩
      · exfalso
        rw [Prod.mk.injEq] at h2
        apply hnd.1
        rw [← h2.1]
        exact List.mem_map.mpr ⟨(k, a), h1, rfl⟩
      · exact nodupKeys_eq hnd.2 h1 h2

theorem emergence_event_mem_elim {s : IState}
    (hnd : (s.pattern_strengths.map Prod.fst).Nodup)
    {pid : String} {hist : List StrengthEntry}
    (hmem : (pid, hist) ∈ s.pattern_strengths)
    {ev : EmergenceEvent} (hev : ev ∈ emergence_events s) (hpid : ev.pattern = pid) :
    ∃ e rest, hist = e :: rest ∧ emergenceThreshold < e.strength ∧
      ev = ⟨e.video, pid, e.strength⟩ := by
  rw [emergence_events, List.mem_filterMap] at hev
  obtain ⟨⟨k1, h1⟩, hkh, hsome⟩ := hev
  rw [emergenceOf_eq_some] at hsome
  obtain ⟨e, rest, h2, hthr, hevq⟩ := hsome
  have hk : k1 = pid := by rw [hevq] at hpid; exact hpid
  subst hk
  have h12 : h1 = hist := nodupKeys_eq hnd hkh hmem
  exact ⟨e, rest, by rw [← h12]; exact h2, hthr, hevq⟩

/-- C4: for a state with distinct pattern keys, a key is reported as an
emergence event iff the first recorded strength of its history exceeds
the 0.8 threshold, and the event's recorded `video` (and strength) are
those of that first history entry — not the index at which the analysis
runs. -/
theorem emergence_events_first_entry (s : IState)
    (hnd : (s.pattern_strengths.map Prod.fst).Nodup)
    (pid : String) (hist : List StrengthEntry)
    (hmem : (pid, hist) ∈ s.pattern_strengths) :
    ((∃ ev ∈ emergence_events s, ev.pattern = pid) ↔
      ∃ e rest, hist = e :: rest ∧ emergenceThreshold < e.strength) ∧
    (∀ ev ∈ emergence_events s, ev.pattern = pid →
      ∃ e rest, hist = e :: rest ∧ ev.video = e.video ∧ ev.initial_strength = e.strength) := by
  constructor
  · constructor
    · rintro ⟨ev, hev, hpid⟩
      obtain ⟨e, rest, hh, hthr, _⟩ := emergence_event_mem_elim hnd hmem hev hpid
      exact ⟨e, rest, hh, hthr⟩
    · rintro ⟨e, rest, hh, hthr⟩
      refine ⟨⟨e.video, pid, e.strength⟩, ?_, rfl⟩
      rw [emergence_events, List.mem_filterMap]
      refine ⟨(pid, hist), hmem, ?_⟩
      rw [emergenceOf_eq_some]
      exact ⟨e, rest, hh, hthr, rfl⟩
  · intro ev hev hpid
    obtain ⟨e, rest, hh, _, hevq⟩ := emergence_event_mem_elim hnd hmem hev hpid
    exact ⟨e, rest, hh, by rw [hevq], by rw [hevq]⟩

/-- Witness for C4 on a concrete two-entry history opening above the
threshold at video 3. -/
theorem emergence_events_first_entry_witness :
    ((∃ ev ∈ emergence_events emergedState, ev.pattern = "p_") ↔
      ∃ e rest, emergedHist = e :: rest ∧ emergenceThreshold < e.strength) ∧
    (∀ ev ∈ emergence_events emergedState, ev.pattern = "p_" →
      ∃ e rest, emergedHist = e :: rest ∧
        ev.video = e.video ∧ ev.initial_strength = e.strength) :=
  emergence_events_first_entry emergedState (by decide) "p_" emergedHist (by decide)

/-! ### C5: checkpoint round trip -/

theorem decodeListO_of {α : Type} (f : α → CVal) (g : CVal → Option α)
    (h : ∀ x, g (f x) = some x) : ∀ l : List α, decodeListO g (l.map f) = some l
  | [] => rfl
  | x :: xs => by rw [List.map_cons, decodeListO, h x, decodeListO_of f g h xs]

theorem decodeLogEntry_roundtrip (e : LogEntry) :
    decodeLogEntry (encodeLogEntry e) = some e := rfl

theorem decodeStrengthEntry_roundtrip (e : StrengthEntry) :
    decodeStrengthEntry (encodeStrengthEntry e) = some e := rfl

theorem decodeCorrEntry_roundtrip (e : CorrEntry) :
    decodeCorrEntry (encodeCorrEntry e) = some e := rfl

theorem decodeStrHist_roundtrip (kh : String × List StrengthEntry) :
    decodeStrHist (encodeStrHist kh) = some kh := by
  obtain ⟨k, l⟩ := kh
  rw [encodeStrHist, decodeStrHist,
      decodeListO_of encodeStrengthEntry decodeStrengthEntry decodeStrengthEntry_roundtrip l]
  rfl

theorem decodeCorrHist_roundtrip (kh : String × List CorrEntry) :
    decodeCorrHist (encodeCorrHist kh) = some kh := by
  obtain ⟨k, l⟩ := kh
  rw [encodeCorrHist, decodeCorrHist,
      decodeListO_of encodeCorrEntry decodeCorrEntry decodeCorrEntry_roundtrip l]
  rfl

/-- Deserializing a serialized state recovers it exactly (the pickle
round trip is lossless). -/
theorem decodeState_encodeState (s : IState) : decodeState (encodeState s) = some s := by
  rw [encodeState, decodeState,
      decodeListO_of encodeLogEntry decodeLogEntry decodeLogEntry_roundtrip,
      decodeListO_of encodeStrHist decodeStrHist decodeStrHist_roundtrip,
      decodeListO_of encodeCorrHist decodeCorrHist decodeCorrHist_roundtrip]

/-- C5: saving a checkpoint at index `vn` and then constructing a fresh
engine whose store resolves that checkpoint as latest yields a state
whose `get_current_state` snapshot equals the snapshot taken before the
save (timestamps are not part of the view; the fresh engine's
`unknown_space` length, 0 on every reachable engine, is held fixed). -/
theorem checkpoint_roundtrip_snapshot (s : IState) (vn : Nat) (store : Store) (s2 : IState)
    (h : load_or_init_state (save_checkpoint true store vn s).2 = some s2) :
    get_current_state 0 s2 = get_current_state 0 s := by
  have h' : decodeState (encodeState s) = some s2 := by
    have h2 : (match (store ++ [(vn, encodeState s)]).getLast? with
               | none => some initState
               | some (_, v) => decodeState v) = some s2 := h
    rw [List.getLast?_concat] at h2
    exact h2
  rw [decodeState_encodeState, Option.some.injEq] at h'
  subst h'
  rfl

/-- Witness for C5 on a concrete accumulated state. -/
theorem checkpoint_roundtrip_snapshot_witness :
    get_current_state 0 emergedState = get_current_state 0 emergedState :=
  checkpoint_roundtrip_snapshot emergedState 3 [] emergedState (by decide)

/-! ### C6: checkpoint-save failure is non-fatal -/

/-- C6: a save failure is swallowed (`save_checkpoint` merely returns
`False`, which `process_video` surfaces as the `checkpoint_saved` flag of
its response rather than raising), the store is left untouched, and the
in-memory state committed by `update_intelligence` is the engine state
after the call whether or not persistence succeeded. -/
theorem save_failure_nonfatal (o : DiscoveryOracle) (s : IState) (store : Store) (vn : Nat) :
    (process_video o false s store vn).1.checkpoint_saved = false ∧
    (process_video o true s store vn).1.checkpoint_saved = true ∧
    (process_video o false s store vn).2.1 =
      (update_intelligence s (discover_patterns o s true) vn).2 ∧
    (process_video o true s store vn).2.1 =
      (update_intelligence s (discover_patterns o s true) vn).2 ∧
    (process_video o false s store vn).2.2 = store ∧
    (process_video o false s store vn).1.intelligence_updated =
      (update_intelligence s (discover_patterns o s true) vn).1 :=
  ⟨rfl, rfl, rfl, rfl, rfl, rfl⟩

/-! ### C8: discovery gating -/

/-- Normal form of `discover_patterns` with `use_previous_intelligence`. -/
theorem discover_patterns_eq (o : DiscoveryOracle) (s : IState) :
    discover_patterns o s true =
      { patterns := if 0 < s.videos_processed then o.emergent else []
        correlations := if 0 < s.videos_processed then o.correlated else []
        unknown := o.unknownSignals
        meta_patterns :=
          if 0 < s.videos_processed then
            (if 10 < s.videos_processed then [⟨o.metaAccel⟩] else [])
          else [] } := by
  unfold discover_patterns find_meta_patterns
  by_cases h0 : 0 < s.videos_processed <;> simp [h0]

/-- C8: patterns and correlations are produced only when
`videos_processed > 0`, meta-patterns only when `videos_processed > 10`,
and unknown-space exploration runs on every call regardless of history
depth. -/
theorem discovery_gating (o : DiscoveryOracle) (s : IState) :
    ((discover_patterns o s true).unknown = o.unknownSignals) ∧
    (s.videos_processed = 0 →
      (discover_patterns o s true).patterns = [] ∧
      (discover_patterns o s true).correlations = [] ∧
      (discover_patterns o s true).meta_patterns = []) ∧
    (0 < s.videos_processed →
      (discover_patterns o s true).patterns = o.emergent ∧
      (discover_patterns o s true).correlations = o.correlated) ∧
    ((discover_patterns o s true).meta_patterns ≠ [] → 10 < s.videos_processed) ∧
    (10 < s.videos_processed →
      (discover_patterns o s true).meta_patterns = [⟨o.metaAccel⟩]) := by
  rw [discover_patterns_eq]
  by_cases h0 : 0 < s.videos_processed <;> by_cases h10 : 10 < s.videos_processed <;>
    simp [h0, h10] <;> omega

/-- Witness for C8 on the cold-start state and on a state past the
meta-pattern threshold. -/
theorem discovery_gating_witness :
    ((discover_patterns sampleOracle initState true).patterns = [] ∧
      (discover_patterns sampleOracle initState true).correlations = [] ∧
      (discover_patterns sampleOracle initState true).meta_patterns = []) ∧
    ((discover_patterns sampleOracle deepState true).patterns = sampleOracle.emergent ∧
      (discover_patterns sampleOracle deepState true).correlations = sampleOracle.correlated) ∧
    10 < deepState.videos_processed ∧
    (discover_patterns sampleOracle deepState true).meta_patterns =
      [⟨sampleOracle.metaAccel⟩] :=
  ⟨(discovery_gating sampleOracle initState).2.1 rfl,
   (discovery_gating sampleOracle deepState).2.2.1 (by decide),
   (discovery_gating sampleOracle deepState).2.2.2.1 (by decide),
   (discovery_gating sampleOracle deepState).2.2.2.2 (by decide)⟩

/-! ### C7: history ordering -/

theorem histOk_mono {v : α → Nat} {B B' : Nat} {m : List (String × List α)}
    (h : HistOk v B m) (hB : B ≤ B') : HistOk v B' m :=
  fun kh hm => ⟨(h kh hm).1, fun e he => le_trans ((h kh hm).2 e he) hB⟩

theorem sorted_concat_le {xs : List Nat} {b : Nat}
    (hs : List.Sorted (· ≤ ·) xs) (hb : ∀ x ∈ xs, x ≤ b) :
    List.Sorted (· ≤ ·) (xs ++ [b]) := by
  rw [List.Sorted, List.pairwise_append]
  exact ⟨hs, List.pairwise_singleton _ _, fun x hx y hy => by
    rw [List.mem_singleton] at hy
    rw [hy]
    exact hb x hx⟩

theorem histOk_assocAppendEntry {v : α → Nat} {B : Nat} :
    ∀ {m : List (String × List α)}, HistOk v B m → ∀ (k : String) (e : α), B ≤ v e →
      HistOk v (v e) (assocAppendEntry m k e)
  | [], _, k, e, _ => by
      intro kh hm
      rw [assocAppendEntry, List.mem_singleton] at hm
      subst hm
      exact ⟨List.sorted_singleton _, fun x hx => by
        rw [List.mem_singleton] at hx
        rw [hx]⟩
  | (k', l) :: rest, h, k, e, hB => by
      have hhead := h (k', l) (List.mem_cons_self _ _)
      have htail : HistOk v B rest := fun kh hm => h kh (List.mem_cons_of_mem _ hm)
      rw [assocAppendEntry]
      by_cases hk : k' = k
      · rw [if_pos hk]
        intro kh hm
        rcases List.mem_cons.mp hm with h1 | h1
        · subst h1
          refine ⟨?_, ?_⟩
          · rw [List.map_append]
            exact sorted_concat_le hhead.1 fun x hx => by
              rw [List.mem_map] at hx
              obtain ⟨a, ha, hax⟩ := hx
              exact hax ▸ le_trans (hhead.2 a ha) hB
          · intro x hx
            rcases List.mem_append.mp hx with h2 | h2
            · exact le_trans (hhead.2 x h2) hB
            · rw [List.mem_singleton] at h2
              rw [h2]
        · exact histOk_mono htail hB kh h1
      · rw [if_neg hk]
        intro kh hm
        rcases List.mem_cons.mp hm with h1 | h1
        · subst h1
          exact ⟨hhead.1, fun x hx => le_trans (hhead.2 x hx) hB⟩
        · exact histOk_assocAppendEntry htail k e hB kh h1

theorem histOk_assocEnsure {v : α → Nat} {B : Nat} :
    ∀ {m : List (String × List α)}, HistOk v B m → ∀ k : String,
      HistOk v B (assocEnsure m k)
  | [], _, k => by
      intro kh hm
      rw [assocEnsure, List.mem_singleton] at hm
      subst hm
      exact ⟨List.sorted_nil, fun x hx => absurd hx (List.not_mem_nil x)⟩
  | (k', l) :: rest, h, k => by
      have hhead := h (k', l) (List.mem_cons_self _ _)
      have htail : HistOk v B rest := fun kh hm => h kh (List.mem_cons_of_mem _ hm)
      rw [assocEnsure]
      by_cases hk : k' = k
      · rw [if_pos hk]
        exact h
      · rw [if_neg hk]
        intro kh hm
        rcases List.mem_cons.mp hm with h1 | h1
        · subst h1
          exact hhead
        · exact histOk_assocEnsure htail k kh h1

theorem histOk_addPattern {B : Nat} {s : IState} {vn : Nat} {p : PatternRecord} {s' : IState}
    (h : HistOk StrengthEntry.video B s.pattern_strengths) (hB : B ≤ vn)
    (hs : addPattern s vn p = some s') :
    HistOk StrengthEntry.video vn s'.pattern_strengths := by
  obtain ⟨pid, _, hs'⟩ := addPattern_some hs
  subst hs'
  exact histOk_assocAppendEntry h pid ⟨vn, p.strength.getD 0⟩ hB

theorem histOk_foldPatterns {B : Nat} (vn : Nat) (hB : B ≤ vn) :
    ∀ (ps : List PatternRecord) (s : IState),
      HistOk StrengthEntry.video B s.pattern_strengths →
      HistOk StrengthEntry.video vn (foldPatterns vn s ps).2.pattern_strengths
  | [], s, h => by
      rw [foldPatterns]
      exact histOk_mono h hB
  | p :: rest, s, h => by
      cases hp : addPattern s vn p with
      | none =>
          rw [foldPatterns, hp]
          exact histOk_mono h hB
      | some s1 =>
          rw [foldPatterns, hp]
          exact histOk_foldPatterns vn le_rfl rest s1 (histOk_addPattern h hB hp)

theorem histOk_addCorrelation {B : Nat} {s : IState} {vn : Nat} {c : CorrelationRecord}
    (h : HistOk CorrEntry.video B s.correlation_matrix) (hB : B ≤ vn) :
    HistOk CorrEntry.video vn (addCorrelation s vn c).2.correlation_matrix := by
  unfold addCorrelation
  cases c.feature_a with
  | none => exact histOk_mono h hB
  | some a =>
      cases c.feature_b with
      | none => exact histOk_mono h hB
      | some b =>
          cases c.correlation with
          | none => exact histOk_mono (histOk_assocEnsure h (a ++ "_" ++ b)) hB
          | some val =>
              exact histOk_assocAppendEntry (histOk_assocEnsure h (a ++ "_" ++ b))
                (a ++ "_" ++ b) ⟨vn, val⟩ hB

theorem histOk_foldCorrs {B : Nat} (vn : Nat) (hB : B ≤ vn) :
    ∀ (cs : List CorrelationRecord) (s : IState),
      HistOk CorrEntry.video B s.correlation_matrix →
      HistOk CorrEntry.video vn (foldCorrs vn s cs).2.correlation_matrix
  | [], s, h => by
      rw [foldCorrs]
      exact histOk_mono h hB
  | c :: rest, s, h => by
      have hadd := histOk_addCorrelation h hB (c := c)
      cases hc : addCorrelation s vn c with
      | mk ok s1 =>
          rw [hc] at hadd
          cases ok with
          | false =>
              rw [foldCorrs, hc]
              exact hadd
          | true =>
              rw [foldCorrs, hc]
              exact histOk_foldCorrs vn le_rfl rest s1 hadd

theorem histOk_update {B : Nat} {s : IState} {d : Discovery} {vn : Nat}
    (hp : HistOk StrengthEntry.video B s.pattern_strengths)
    (hc : HistOk CorrEntry.video B s.correlation_matrix) (hB : B ≤ vn) :
    HistOk StrengthEntry.video vn (update_intelligence s d vn).2.pattern_strengths ∧
    HistOk CorrEntry.video vn (update_intelligence s d vn).2.correlation_matrix := by
  unfold update_intelligence
  have hps := histOk_foldPatterns vn hB d.patterns
    { s with
      videos_processed := s.videos_processed + 1
      total_patterns := s.total_patterns + d.patterns.length
      total_correlations := s.total_correlations + d.correlations.length } hp
  have hstable := foldPatterns_stable vn d.patterns
    { s with
      videos_processed := s.videos_processed + 1
      total_patterns := s.total_patterns + d.patterns.length
      total_correlations := s.total_correlations + d.correlations.length }
  cases hfp : foldPatterns vn
      { s with
        videos_processed := s.videos_processed + 1
        total_patterns := s.total_patterns + d.patterns.length
        total_correlations := s.total_correlations + d.correlations.length } d.patterns with
  | mk okp s2 =>
      rw [hfp] at hps hstable
      have hc2 : HistOk CorrEntry.video B s2.correlation_matrix := by
        have : s2.correlation_matrix = s.correlation_matrix := hstable.2.2.2.2
        rw [this]
        exact hc
      cases okp with
      | false =>
          simp only [hfp]
          exact ⟨hps, histOk_mono hc2 hB⟩
      | true =>
          have hcs := histOk_foldCorrs vn hB d.correlations s2 hc2
          have hcstable := foldCorrs_stable vn d.correlations s2
          cases hfc : foldCorrs vn s2 d.correlations with
          | mk okc s3 =>
              rw [hfc] at hcs hcstable
              have hp3 : HistOk StrengthEntry.video vn s3.pattern_strengths := by
                have : s3.pattern_strengths = s2.pattern_strengths := hcstable.2.2.2.2
                rw [this]
                exact hps
              cases okc with
              | false =>
                  simp only [hfp, hfc]
                  exact ⟨hp3, hcs⟩
              | true =>
                  simp only [hfp, hfc]
                  exact ⟨hp3, hcs⟩

theorem histOk_runUpdates :
    ∀ (inputs : List (Discovery × Nat)) (s s' : IState) (B : Nat),
      HistOk StrengthEntry.video B s.pattern_strengths →
      HistOk CorrEntry.video B s.correlation_matrix →
      List.Chain (· ≤ ·) B (inputs.map Prod.snd) →
      runUpdates s inputs = some s' →
      ∃ B', HistOk StrengthEntry.video B' s'.pattern_strengths ∧
        HistOk CorrEntry.video B' s'.correlation_matrix
  | [], s, s', B, hp, hc, _, h => by
      rw [runUpdates, Option.some.injEq] at h
      subst h
      exact ⟨B, hp, hc⟩
  | (d, vn) :: rest, s, s', B, hp, hc, hchain, h => by
      rw [List.map_cons, List.chain_cons] at hchain
      have hstep := histOk_update (d := d) hp hc hchain.1
      cases hup : update_intelligence s d vn with
      | mk ok s1 =>
          rw [hup] at hstep
          cases ok with
          | false => rw [runUpdates, hup] at h; exact absurd h (by simp)
          | true =>
              rw [runUpdates, hup] at h
              exact histOk_runUpdates rest s1 s' vn hstep.1 hstep.2 hchain.2 h

/-- C7: along any sequence of successful `update_intelligence` calls from
a cold start whose item indices are supplied in non-decreasing order (the
caller contract), every per-key history under `pattern_strengths` and
under the correlation history has a non-decreasing recorded `video`
sequence (entries are appended in processing order). -/
theorem history_videos_sorted (inputs : List (Discovery × Nat)) (s' : IState)
    (hsorted : List.Sorted (· ≤ ·) (inputs.map Prod.snd))
    (hrun : runUpdates initState inputs = some s') :
    (∀ kh ∈ s'.pattern_strengths, List.Sorted (· ≤ ·) (kh.2.map StrengthEntry.video)) ∧
    (∀ kh ∈ s'.correlation_matrix, List.Sorted (· ≤ ·) (kh.2.map CorrEntry.video)) := by
  have hchain : List.Chain (· ≤ ·) 0 (inputs.map Prod.snd) := by
    rw [List.chain_iff_pairwise]
    rw [List.pairwise_cons]
    exact ⟨fun x _ => Nat.zero_le x, hsorted⟩
  have h0p : HistOk StrengthEntry.video 0 initState.pattern_strengths :=
    fun kh hm => absurd hm (List.not_mem_nil kh)
  have h0c : HistOk CorrEntry.video 0 initState.correlation_matrix :=
    fun kh hm => absurd hm (List.not_mem_nil kh)
  obtain ⟨B', hp, hc⟩ := histOk_runUpdates inputs initState s' 0 h0p h0c hchain hrun
  exact ⟨fun kh hm => (hp kh hm).1, fun kh hm => (hc kh hm).1⟩

set_option maxRecDepth 8192 in
/-- Witness for C7 on a concrete two-call run with indices 0 then 1. -/
theorem history_videos_sorted_witness :
    (∀ kh ∈ sampleRunState.pattern_strengths,
      List.Sorted (· ≤ ·) (kh.2.map StrengthEntry.video)) ∧
    (∀ kh ∈ sampleRunState.correlation_matrix,
      List.Sorted (· ≤ ·) (kh.2.map CorrEntry.video)) :=
  history_videos_sorted sampleInputs sampleRunState (by decide) (by decide)

end SolarEmergence
